import Mathlib

/-!
Verification of the elb-logs-to-cloudwatch pipeline.

This file gives a shallow embedding, in Lean, of the Go sources of the
repository and proves (or refutes) the frozen specification claims about it.
Strings from the Go side are modelled as Lean `String`s; where Go standard
library helpers (`strings.Split`, `strings.TrimSpace`, `strings.Index`) are
used by the sources, they are embedded as structurally recursive functions
over the character list of the string so that every definition is fully
executable by the kernel.  External collaborators (the S3 client, the
CloudWatch client, `json.Marshal`, `time.Parse`) are parameters of the
embedded functions: the pipeline code never inspects their outputs beyond
success/failure and raw payloads, so the claims quantify over them.
-/

deriving instance DecidableEq for Except

namespace ElbLogs

/-! ### Go string helpers

`splitOnComma` embeds `strings.Split(s, ",")`, `trimSpace` embeds
`strings.TrimSpace`, and `indexOfSlash` embeds `strings.Index(s, "/")`.
All three operate on the character list of the string; the separator and
the trimmed characters are ASCII, so the byte-level Go behaviour and the
character-level model agree. -/

def splitOnComma : List Char → List (List Char)
  | [] => [[]]
  | c :: cs =>
    if c = ',' then [] :: splitOnComma cs
    else
      match splitOnComma cs with
      | t :: ts => (c :: t) :: ts
      | [] => [[c]]

def dropLeadingSpace : List Char → List Char
  | [] => []
  | c :: cs => if c.isWhitespace then dropLeadingSpace cs else c :: cs

def trimSpace (cs : List Char) : List Char :=
  dropLeadingSpace (dropLeadingSpace cs.reverse).reverse

def goSplit (s : String) : List String :=
  (splitOnComma s.data).map fun cs => { data := cs }

def goTrim (s : String) : String := { data := trimSpace s.data }

def indexOfSlash : List Char → Option Nat
  | [] => none
  | c :: cs => if c = '/' then some 0 else (indexOfSlash cs).map (· + 1)

/-! ### Field schema and field projector (fields source file)

`fieldNames` is the fixed ELB access-log schema; `NewFields` resolves the
comma-separated `FIELDS` configuration against it.  The Go
`map[string]bool` holding only `true` entries is modelled by the list of
inserted keys, looked up by membership. -/

def fieldNames : List String :=
  ["type", "time", "elb", "client:port", "target:port",
   "request_processing_time", "target_processing_time",
   "response_processing_time", "elb_status_code", "target_status_code",
   "received_bytes", "sent_bytes", "request", "user_agent", "ssl_cipher",
   "ssl_protocol", "target_group_arn", "trace_id", "domain_name",
   "chosen_cert_arn", "matched_rule_priority", "request_creation_time",
   "actions_executed", "redirect_url", "error_reason", "target:port_list",
   "target_status_code_list", "classification", "classification_reason",
   "conn_trace_id"]

/-- FieldsError.invalidFieldName t models the Go error
string "invalid field name (t) provided": the offending token is carried
as data. -/
inductive FieldsError where
  | invalidFieldName (token : String)
  deriving DecidableEq

structure IncludedFields where
  includedFieldsMap : List String
  deriving DecidableEq

/-- addFields models the validation loop of `NewFields`: each token is
trimmed, checked against the schema, and inserted; the first unknown token
aborts with its name. -/
def addFields (acc : List String) : List String → Except FieldsError (List String)
  | [] => .ok acc
  | f :: rest =>
    let t := goTrim f
    if fieldNames.contains t then addFields (acc ++ [t]) rest
    else .error (.invalidFieldName t)

def NewFields (fieldsConfig : String) : Except FieldsError IncludedFields :=
  if fieldsConfig = "" then .ok ⟨fieldNames⟩
  else (addFields [] (goSplit fieldsConfig)).map fun l => ⟨l⟩

/-- IncludedFields.IncludeField embeds the Go method: indices outside
the schema range answer false, otherwise the name at the index is looked
up in the included-fields map.  The index is an `Int` so that the Go call
`IncludeField(-1)` is expressible. -/
def IncludedFields.IncludeField (fs : IncludedFields) (index : Int) : Bool :=
  if index < 0 ∨ (fieldNames.length : Int) ≤ index then false
  else fs.includedFieldsMap.contains (fieldNames.getD index.toNat "")

/-! ### Record parser (processRecords / recordToLogEntry)

`parseTime` abstracts `time.Parse(time.RFC3339, ·)`: the pipeline only
branches on its success and stores the resulting instant, modelled as its
`UnixMilli` value. -/

structure LogEntry where
  data : List (String × String)
  timestamp : Int
  deriving DecidableEq

inductive RecError where
  | invalidLogFormat (expected actual : Nat)
  | timestampError (msg : String)
  deriving DecidableEq

/-- projectRecord models the projection loop of `recordToLogEntry`:
for each index of the record, the value is kept under its schema name
exactly when the field store includes that index. -/
def projectRecord (record : List String) (fieldStore : IncludedFields) :
    List (String × String) :=
  (List.range record.length).filterMap fun (i : Nat) =>
    if fieldStore.IncludeField (i : Int) then
      some (fieldNames.getD i "", record.getD i "")
    else none

def recordToLogEntry (record : List String) (fieldStore : IncludedFields)
    (parseTime : String → Except String Int) : Except RecError LogEntry :=
  if record.length ≠ fieldNames.length then
    .error (.invalidLogFormat fieldNames.length record.length)
  else
    match parseTime (record.getD 1 "") with
    | .error e => .error (.timestampError e)
    | .ok ts => .ok ⟨projectRecord record fieldStore, ts⟩

/-- consumeRecords models the read loop of `processRecords` on an
already-tokenized stream: records are converted in order and sent to the
intake channel; the first conversion error stops the loop, returning the
entries emitted so far together with the error. -/
def consumeRecords (fieldStore : IncludedFields)
    (parseTime : String → Except String Int) :
    List (List String) → List LogEntry × Option RecError
  | [] => ([], none)
  | r :: rs =>
    match recordToLogEntry r fieldStore parseTime with
    | .error e => ([], some e)
    | .ok entry =>
      let rest := consumeRecords fieldStore parseTime rs
      (entry :: rest.1, rest.2)

inductive ProcError where
  | readError (msg : String)
  | recordError (e : RecError)
  deriving DecidableEq

/-- StreamInput models the decompressed byte stream as seen by the CSV
reader: the well-formed records it yields in order, followed by an
optional read error (a gzip or CSV failure surfaced through the pipe). -/
structure StreamInput where
  records : List (List String)
  streamError : Option String
  deriving DecidableEq

def processRecords (input : StreamInput) (fieldStore : IncludedFields)
    (parseTime : String → Except String Int) : List LogEntry × Option ProcError :=
  let res := consumeRecords fieldStore parseTime input.records
  match res.2 with
  | some e => (res.1, some (.recordError e))
  | none => (res.1, input.streamError.map .readError)

/-! ### Batch accumulator (the consumer goroutine of ProcessLogs) and the
CloudWatch helpers (cloudwatch source file) -/

structure InputLogEvent where
  message : String
  timestamp : Int
  deriving DecidableEq

/-- EstimateEventSize: UTF-8 length of the message plus the 26-byte
per-event overhead, as in the Go source. -/
def EstimateEventSize (event : InputLogEvent) : Nat :=
  event.message.utf8ByteSize + 26

def maxBatchSize : Nat := 1048576

def maxBatchCount : Nat := 10000

def insertByTimestamp (e : InputLogEvent) : List InputLogEvent → List InputLogEvent
  | [] => [e]
  | x :: xs =>
    if e.timestamp < x.timestamp then e :: x :: xs else x :: insertByTimestamp e xs

/-- SendEventsToCloudWatch returns the sequence of events actually handed
to `PutLogEvents`: the Go function first sorts the batch ascending by
timestamp (`sort.Slice`, an unstable sort, modelled here by insertion
sort: both produce a timestamp-ascending permutation of the batch). -/
def SendEventsToCloudWatch (events : List InputLogEvent) : List InputLogEvent :=
  events.foldr insertByTimestamp []

/-- AccState is the loop state of the accumulator goroutine: the pending
batch `events` with its running `currentBatchSize`, the `batches` flushed
so far (each paired with the success of its `PutLogEvents` call), and the
`SafeCounter` value.  The counter is only ever touched by this single
goroutine, so the mutex-protected Go counter is modelled by a plain
field. -/
structure AccState where
  events : List InputLogEvent
  currentBatchSize : Nat
  batches : List (List InputLogEvent × Bool)
  counter : Nat
  deriving DecidableEq

def initAcc : AccState := ⟨[], 0, [], 0⟩

/-- flushBatch models one `SendEventsToCloudWatch` call site: the send
outcome (indexed by how many sends happened before) is recorded, the
counter is incremented by the flushed count whether or not the send
succeeded (as in the source), and the pending batch is reset. -/
def flushBatch (sendOk : Nat → Bool) (s : AccState) : AccState :=
  { events := [], currentBatchSize := 0,
    batches := s.batches ++ [(s.events, sendOk s.batches.length)],
    counter := s.counter + s.events.length }

/-- accStep is one iteration of `for entry := range entryChan`: if the
pending batch is non-empty and the new event would overflow the byte
budget, or the batch already holds the maximum count, the pending batch
is flushed first; then the event is appended. -/
def accStep (sendOk : Nat → Bool) (s : AccState) (event : InputLogEvent) : AccState :=
  let eventSize := EstimateEventSize event
  let s' :=
    if 0 < s.events.length ∧
        (maxBatchSize < s.currentBatchSize + eventSize ∨ maxBatchCount ≤ s.events.length) then
      flushBatch sendOk s
    else s
  { s' with events := s'.events ++ [event],
            currentBatchSize := s'.currentBatchSize + eventSize }

/-- accFinish models the drain after the channel closes: a non-empty
pending batch is flushed. -/
def accFinish (sendOk : Nat → Bool) (s : AccState) : AccState :=
  if 0 < s.events.length then flushBatch sendOk s else s

def runAccEvents (sendOk : Nat → Bool) (events : List InputLogEvent) : AccState :=
  accFinish sendOk (events.foldl (accStep sendOk) initAcc)

/-- entryToEvent models the construction of a `cloudwatchlogs.InputLogEvent`
from a consumed entry: `marshal` abstracts `json.Marshal` of the entry's
field map, and the entry timestamp is already held as its UnixMilli
value. -/
def entryToEvent (marshal : LogEntry → String) (entry : LogEntry) : InputLogEvent :=
  ⟨marshal entry, entry.timestamp⟩

/-- runAccumulator is the whole accumulator goroutine: each consumed
LogEntry is marshalled into a wire event and accumulated; on queue
closure the remainder is flushed. -/
def runAccumulator (marshal : LogEntry → String) (sendOk : Nat → Bool)
    (entries : List LogEntry) : AccState :=
  runAccEvents sendOk (entries.map (entryToEvent marshal))

def sizeSum (events : List InputLogEvent) : Nat :=
  (events.map EstimateEventSize).sum

def flushedEvents (s : AccState) : List InputLogEvent :=
  (s.batches.map Prod.fst).flatten

/-! ### The object pipeline (ProcessLogs) -/

inductive PipelineError where
  | getObjectFailed (msg : String)
  deriving DecidableEq

structure ProcessResult where
  batches : List (List InputLogEvent × Bool)
  counter : Nat
  loggedError : Option ProcError
  deriving DecidableEq

/-- ProcessLogs: `fetch` abstracts the `GetObject` call together with the
decompression bridge (its error is the only one ProcessLogs returns); on
success the record stream is parsed, every entry queued before a parse
error is still handed to the accumulator, the accumulator drains after
the channel closes, and the function returns nil.  Parse and send errors
are only logged (`loggedError`, console output). -/
def ProcessLogs (fetch : Except String StreamInput) (fieldStore : IncludedFields)
    (parseTime : String → Except String Int) (marshal : LogEntry → String)
    (sendOk : Nat → Bool) : Except PipelineError ProcessResult :=
  match fetch with
  | .error e => .error (.getObjectFailed e)
  | .ok input =>
    let parsed := processRecords input fieldStore parseTime
    let acc := runAccumulator marshal sendOk parsed.1
    .ok ⟨acc.batches, acc.counter, parsed.2⟩

/-! ### Processor construction (NewLogProcessor) -/

structure Config where
  LogGroupName : String
  LogStreamName : String
  Fields : String
  deriving DecidableEq

structure LogConfig where
  LogGroupName : String
  LogStreamName : String
  deriving DecidableEq

structure CloudWatchLogProcessor where
  fieldStore : Option IncludedFields
  logConfig : LogConfig
  deriving DecidableEq

/-- NewLogProcessor: `ensureResult` abstracts
`EnsureLogGroupAndLogStreamExists`.  The Go source discards the error of
`NewFields` (`fieldStore, _ := NewFields(config.Fields)`), so the field
store is the `Option` of that result and construction only fails on the
log-group bootstrap. -/
def NewLogProcessor (config : Config) (ensureResult : Except String Unit) :
    Except String CloudWatchLogProcessor :=
  let fieldStore := (NewFields config.Fields).toOption
  match ensureResult with
  | .error e => .error e
  | .ok _ => .ok ⟨fieldStore, ⟨config.LogGroupName, config.LogStreamName⟩⟩

/-! ### ParseS3URL (config source file) -/

/-- S3URLError: `missingS3Prefix` models the Go error string about the
missing scheme prefix, `noSlashAfterBucket` the one about the missing
slash after the bucket name. -/
inductive S3URLError where
  | missingS3Prefix
  | noSlashAfterBucket
  deriving DecidableEq

def s3Scheme : List Char := ['s', '3', ':', '/', '/']

def ParseS3URL (url : String) : Except S3URLError (String × String) :=
  if url.data.take 5 = s3Scheme then
    let rest := url.data.drop 5
    match indexOfSlash rest with
    | none => .error .noSlashAfterBucket
    | some splitPos => .ok (⟨rest.take splitPos⟩, ⟨rest.drop (splitPos + 1)⟩)
  else .error .missingS3Prefix

/-! ### Fan-out scheduler (processS3Objects)

The error collection of `processS3Objects` is modelled as a small
transition system.  One worker goroutine runs per object; a worker whose
`ProcessLogs` returns nil finishes silently, a worker whose `ProcessLogs`
fails must rendezvous on the unbuffered `errs` channel.  The main
goroutine is the only receiver; it returns the first error it receives,
after which nobody receives any more (`returned ≠ none` disables further
rendezvous).  When every worker is done, `wg.Wait` lets the closer
goroutine close `errs` and the main loop returns nil.  The `concurrent`
admission channel holds 10 permits and never blocks for the configurations
considered here, so it is not represented. -/

structure S3ObjectInfo where
  Bucket : String
  Key : String
  deriving DecidableEq

/-- FormattedError carries the data of the Go error
`error processing logs for s3://(bucket)/(key): (cause)`. -/
structure FormattedError where
  bucket : String
  key : String
  cause : String
  deriving DecidableEq

inductive WorkerStatus where
  | running
  | done
  deriving DecidableEq

structure SchedState where
  workers : List WorkerStatus
  returned : Option (Option FormattedError)
  deriving DecidableEq

/-- SchedConfig: the objects passed to `processS3Objects` and, for each,
the outcome of its `h.lp.ProcessLogs` call (none = nil error). -/
structure SchedConfig where
  objects : List S3ObjectInfo
  results : List (Option String)
  deriving DecidableEq

def schedInit (cfg : SchedConfig) : SchedState :=
  ⟨List.replicate cfg.objects.length .running, none⟩

def formattedError (cfg : SchedConfig) (i : Nat) : FormattedError :=
  ⟨(cfg.objects.getD i ⟨"", ""⟩).Bucket, (cfg.objects.getD i ⟨"", ""⟩).Key,
   (cfg.results.getD i none).getD ""⟩

/-- stepTargets enumerates the states reachable in one scheduling step:
a successful worker finishes, or a failing worker rendezvouses with the
still-listening main goroutine (which then immediately returns that
error), or — once every worker is done — the channel is closed and the
main loop returns nil. -/
def stepTargets (cfg : SchedConfig) (s : SchedState) : List SchedState :=
  ((List.range cfg.objects.length).filterMap fun i =>
    if s.workers.getD i .done = .running ∧ cfg.results.getD i none = none then
      some { s with workers := s.workers.set i .done }
    else none)
  ++ ((List.range cfg.objects.length).filterMap fun i =>
    if s.returned = none ∧ s.workers.getD i .done = .running
        ∧ (cfg.results.getD i none).isSome then
      some ⟨s.workers.set i .done, some (some (formattedError cfg i))⟩
    else none)
  ++ (if s.returned = none ∧ (∀ w ∈ s.workers, w = .done) then
        [⟨s.workers, some none⟩]
      else [])

def SchedStep (cfg : SchedConfig) (s t : SchedState) : Prop :=
  t ∈ stepTargets cfg s

def SchedReachable (cfg : SchedConfig) : SchedState → SchedState → Prop :=
  Relation.ReflTransGen (SchedStep cfg)

/-- SchedTerminal: no scheduling step applies any more; a worker still
`running` in a terminal state is blocked forever. -/
def SchedTerminal (cfg : SchedConfig) (s : SchedState) : Prop :=
  stepTargets cfg s = []

/-! ### Derived notions used in statements and proofs -/

/-- chronological l: timestamps are non-decreasing along l. -/
def chronological (l : List InputLogEvent) : Prop :=
  List.Pairwise (fun a b => a.timestamp ≤ b.timestamp) l

/-- GoodBatch b: b was flushed non-empty, respects the count limit, and
either respects the byte budget or is a single (oversized) event. -/
def GoodBatch (b : List InputLogEvent) : Prop :=
  0 < b.length ∧ b.length ≤ maxBatchCount ∧ (b.length = 1 ∨ sizeSum b ≤ maxBatchSize)

/-- AccInv: the loop invariant of the accumulator goroutine. -/
structure AccInv (s : AccState) : Prop where
  size_eq : s.currentBatchSize = sizeSum s.events
  len_le : s.events.length ≤ maxBatchCount
  pend_ok : s.events.length ≤ 1 ∨ sizeSum s.events ≤ maxBatchSize
  batches_ok : ∀ p ∈ s.batches, GoodBatch p.1
  counter_eq : s.counter = (flushedEvents s).length

/-- accSameData s t: the two accumulator states agree on everything except
the recorded send outcomes. -/
def accSameData (s t : AccState) : Prop :=
  s.events = t.events ∧ s.currentBatchSize = t.currentBatchSize
    ∧ s.counter = t.counter ∧ s.batches.map Prod.fst = t.batches.map Prod.fst

/-- selectedNames cfg: the column names a successful `NewFields cfg`
selects — every schema name when the configuration string is empty,
otherwise the trimmed comma-separated tokens. -/
def selectedNames (cfg : String) : List String :=
  if cfg = "" then fieldNames else (goSplit cfg).map goTrim

/-- specSuccessfulEntryTotal follows the specification sentence for the
ProgressCounter: the total number of entries across the batches whose
emission to the sink succeeded. -/
def specSuccessfulEntryTotal (s : AccState) : Nat :=
  ((s.batches.filter fun p => p.2).map fun p => p.1.length).sum

/-- bigMessage: a 1,048,551-byte ASCII payload, the marshalled form of an
entry whose request field is about 1 MB long; its wire event alone
exceeds the batch byte budget. -/
def bigMessage : String := String.mk (List.replicate 1048551 'a')

def bigEvent : InputLogEvent := ⟨bigMessage, 0⟩

/-- twoFailConfig: two objects whose ProcessLogs calls both fail — the
concrete input exhibiting the abandoned-sender hazard of
processS3Objects. -/
def twoFailConfig : SchedConfig :=
  ⟨[⟨"bucket-a", "key-a"⟩, ⟨"bucket-b", "key-b"⟩],
   [some "failed to get object: boom-a", some "failed to get object: boom-b"]⟩

/-! ### Helper lemmas: sorting at emission -/

theorem mem_insertByTimestamp (y e : InputLogEvent) (l : List InputLogEvent) :
    y ∈ insertByTimestamp e l ↔ y = e ∨ y ∈ l := by
  induction l with
  | nil => simp [insertByTimestamp]
  | cons x xs ih =>
    by_cases h : e.timestamp < x.timestamp
    · simp [insertByTimestamp, h]
    · simp [insertByTimestamp, h, ih]
      tauto

theorem chronological_insert (e : InputLogEvent) (l : List InputLogEvent)
    (h : chronological l) : chronological (insertByTimestamp e l) := by
  induction l with
  | nil => simp [insertByTimestamp, chronological]
  | cons x xs ih =>
    simp only [chronological, List.pairwise_cons] at h
    obtain ⟨hx, hxs⟩ := h
    by_cases hlt : e.timestamp < x.timestamp
    · rw [insertByTimestamp, if_pos hlt]
      simp only [chronological, List.pairwise_cons]
      refine ⟨?_, hx, hxs⟩
      intro y hy
      rcases List.mem_cons.mp hy with rfl | hmem
      · exact le_of_lt hlt
      · exact le_trans (le_of_lt hlt) (hx y hmem)
    · rw [insertByTimestamp, if_neg hlt]
      simp only [chronological, List.pairwise_cons]
      refine ⟨?_, ih hxs⟩
      intro y hy
      rcases (mem_insertByTimestamp y e xs).mp hy with rfl | hmem
      · exact le_of_not_lt hlt
      · exact hx y hmem

theorem chronological_sendEvents (l : List InputLogEvent) :
    chronological (SendEventsToCloudWatch l) := by
  induction l with
  | nil => simp [SendEventsToCloudWatch, chronological]
  | cons x xs ih => exact chronological_insert x _ ih

theorem insertByTimestamp_perm (e : InputLogEvent) (l : List InputLogEvent) :
    List.Perm (insertByTimestamp e l) (e :: l) := by
  induction l with
  | nil => rfl
  | cons x xs ih =>
    by_cases h : e.timestamp < x.timestamp
    · rw [insertByTimestamp, if_pos h]
    · rw [insertByTimestamp, if_neg h]
      exact (ih.cons x).trans (List.Perm.swap e x xs)

theorem sendEvents_perm (l : List InputLogEvent) :
    List.Perm (SendEventsToCloudWatch l) l := by
  induction l with
  | nil => rfl
  | cons x xs ih =>
    exact (insertByTimestamp_perm x (SendEventsToCloudWatch xs)).trans (ih.cons x)

theorem length_sendEvents (l : List InputLogEvent) :
    (SendEventsToCloudWatch l).length = l.length :=
  (sendEvents_perm l).length_eq

theorem sizeSum_sendEvents (l : List InputLogEvent) :
    sizeSum (SendEventsToCloudWatch l) = sizeSum l :=
  ((sendEvents_perm l).map EstimateEventSize).sum_eq

/-! ### Helper lemmas: the accumulator invariant -/

theorem sizeSum_append (l : List InputLogEvent) (e : InputLogEvent) :
    sizeSum (l ++ [e]) = sizeSum l + EstimateEventSize e := by
  simp [sizeSum]

theorem eventSize_le_sizeSum (e : InputLogEvent) (b : List InputLogEvent)
    (he : e ∈ b) : EstimateEventSize e ≤ sizeSum b :=
  List.single_le_sum (fun x _ => Nat.zero_le x) _ (List.mem_map_of_mem _ he)

theorem flushedEvents_flushBatch (k : Nat → Bool) (s : AccState) :
    flushedEvents (flushBatch k s) = flushedEvents s ++ s.events := by
  simp [flushedEvents, flushBatch]

theorem accInv_init : AccInv initAcc := by
  refine ⟨rfl, ?_, ?_, ?_, rfl⟩ <;> simp [initAcc, maxBatchCount, flushedEvents]

theorem accInv_flushBatch (k : Nat → Bool) (s : AccState) (h : AccInv s)
    (hne : 0 < s.events.length) : AccInv (flushBatch k s) := by
  refine ⟨rfl, ?_, ?_, ?_, ?_⟩
  · simp [flushBatch, maxBatchCount]
  · simp [flushBatch]
  · intro p hp
    rcases (by simpa [flushBatch] using hp :
        p ∈ s.batches ∨ p = (s.events, k s.batches.length)) with hold | rfl
    · exact h.batches_ok p hold
    · refine ⟨hne, h.len_le, ?_⟩
      rcases h.pend_ok with hle | hsz
      · exact Or.inl (Nat.le_antisymm hle hne)
      · exact Or.inr hsz
  · rw [flushedEvents_flushBatch]
    simp [flushBatch, h.counter_eq]

theorem accInv_step (k : Nat → Bool) (s : AccState) (e : InputLogEvent)
    (h : AccInv s) : AccInv (accStep k s e) := by
  rw [accStep]
  by_cases hc : 0 < s.events.length ∧
      (maxBatchSize < s.currentBatchSize + EstimateEventSize e
        ∨ maxBatchCount ≤ s.events.length)
  · rw [if_pos hc]
    have hf := accInv_flushBatch k s h hc.1
    refine ⟨?_, ?_, ?_, ?_, ?_⟩
    · simp [flushBatch, sizeSum]
    · simp [flushBatch, maxBatchCount]
    · simp [flushBatch]
    · intro p hp
      exact hf.batches_ok p (by simpa [flushBatch] using hp)
    · have : flushedEvents (flushBatch k s) = flushedEvents s ++ s.events :=
        flushedEvents_flushBatch k s
      simp only [flushedEvents, flushBatch] at this ⊢
      simp [flushBatch, this, h.counter_eq, flushedEvents]
  · rw [if_neg hc]
    rcases Nat.eq_zero_or_pos s.events.length with hz | hpos
    · have hev : s.events = [] := List.length_eq_zero.mp hz
      refine ⟨?_, ?_, ?_, h.batches_ok, h.counter_eq⟩
      · rw [sizeSum_append, h.size_eq]
      · simpa [hev] using (by simp [maxBatchCount] : 1 ≤ maxBatchCount)
      · simp [hev]
    · push_neg at hc
      obtain ⟨hsz, hcnt⟩ := hc hpos
      refine ⟨?_, ?_, ?_, h.batches_ok, h.counter_eq⟩
      · rw [sizeSum_append, h.size_eq]
      · simp only [List.length_append, List.length_singleton]
        omega
      · exact Or.inr (by rw [sizeSum_append, ← h.size_eq]; exact hsz)

theorem accInv_foldl (k : Nat → Bool) (evs : List InputLogEvent) (s : AccState)
    (h : AccInv s) : AccInv (evs.foldl (accStep k) s) := by
  induction evs generalizing s with
  | nil => exact h
  | cons e rest ih => exact ih _ (accInv_step k s e h)

theorem accInv_run (k : Nat → Bool) (evs : List InputLogEvent) :
    AccInv (runAccEvents k evs) := by
  rw [runAccEvents, accFinish]
  have h := accInv_foldl k evs initAcc accInv_init
  by_cases hne : 0 < (evs.foldl (accStep k) initAcc).events.length
  · rw [if_pos hne]
    exact accInv_flushBatch k _ h hne
  · rw [if_neg hne]
    exact h

/-! ### Helper lemmas: every consumed event is flushed exactly once -/

theorem flushed_accStep (k : Nat → Bool) (s : AccState) (e : InputLogEvent) :
    flushedEvents (accStep k s e) ++ (accStep k s e).events
      = flushedEvents s ++ s.events ++ [e] := by
  rw [accStep]
  by_cases hc : 0 < s.events.length ∧
      (maxBatchSize < s.currentBatchSize + EstimateEventSize e
        ∨ maxBatchCount ≤ s.events.length)
  · rw [if_pos hc]
    simp [flushedEvents, flushBatch]
  · rw [if_neg hc]
    simp [flushedEvents]

theorem flushed_foldl (k : Nat → Bool) (evs : List InputLogEvent) (s : AccState) :
    flushedEvents (evs.foldl (accStep k) s) ++ (evs.foldl (accStep k) s).events
      = flushedEvents s ++ s.events ++ evs := by
  induction evs generalizing s with
  | nil => simp
  | cons e rest ih =>
    rw [List.foldl_cons, ih (accStep k s e), flushed_accStep]
    simp

theorem flushed_run (k : Nat → Bool) (evs : List InputLogEvent) :
    flushedEvents (runAccEvents k evs) = evs ∧ (runAccEvents k evs).events = [] := by
  have hb := flushed_foldl k evs initAcc
  rw [show flushedEvents initAcc = [] from rfl,
    show initAcc.events = [] from rfl, List.append_nil, List.nil_append] at hb
  rw [runAccEvents, accFinish]
  by_cases hne : 0 < (evs.foldl (accStep k) initAcc).events.length
  · rw [if_pos hne]
    constructor
    · rw [flushedEvents_flushBatch]
      exact hb
    · simp [flushBatch]
  · rw [if_neg hne]
    have hev : (evs.foldl (accStep k) initAcc).events = [] :=
      List.length_eq_zero.mp (Nat.eq_zero_of_not_pos hne)
    constructor
    · rw [hev, List.append_nil] at hb
      exact hb
    · exact hev

theorem counter_run (k : Nat → Bool) (evs : List InputLogEvent) :
    (runAccEvents k evs).counter = evs.length := by
  rw [(accInv_run k evs).counter_eq, (flushed_run k evs).1]

/-! ### Helper lemmas: the flushed batches do not depend on send outcomes -/

theorem accSameData_step (k k' : Nat → Bool) (s t : AccState) (e : InputLogEvent)
    (h : accSameData s t) : accSameData (accStep k s e) (accStep k' t e) := by
  obtain ⟨he, hs, hc, hbm⟩ := h
  rw [accStep, accStep]
  by_cases hcond : 0 < s.events.length ∧
      (maxBatchSize < s.currentBatchSize + EstimateEventSize e
        ∨ maxBatchCount ≤ s.events.length)
  · rw [if_pos hcond, if_pos (by rw [← he, ← hs]; exact hcond)]
    refine ⟨rfl, rfl, by simp [flushBatch, hc, he], ?_⟩
    simp [flushBatch, hbm, he]
  · rw [if_neg hcond, if_neg (by rw [← he, ← hs]; exact hcond)]
    exact ⟨by rw [he], by rw [hs], hc, hbm⟩

theorem accSameData_foldl (k k' : Nat → Bool) (evs : List InputLogEvent)
    (s t : AccState) (h : accSameData s t) :
    accSameData (evs.foldl (accStep k) s) (evs.foldl (accStep k') t) := by
  induction evs generalizing s t with
  | nil => exact h
  | cons e rest ih => exact ih _ _ (accSameData_step k k' s t e h)

theorem accSameData_run (k k' : Nat → Bool) (evs : List InputLogEvent) :
    accSameData (runAccEvents k evs) (runAccEvents k' evs) := by
  have h := accSameData_foldl k k' evs initAcc initAcc ⟨rfl, rfl, rfl, rfl⟩
  obtain ⟨he, hs, hc, hbm⟩ := h
  rw [runAccEvents, runAccEvents, accFinish, accFinish]
  by_cases hne : 0 < (evs.foldl (accStep k) initAcc).events.length
  · rw [if_pos hne, if_pos (by rw [← he]; exact hne)]
    refine ⟨rfl, rfl, by simp [flushBatch, hc, he], ?_⟩
    simp [flushBatch, hbm, he]
  · rw [if_neg hne, if_neg (by rw [← he]; exact hne)]
    exact ⟨he, hs, hc, hbm⟩

/-! ### Helper lemmas: the oversized concrete event -/

theorem utf8Len_replicate (n : Nat) :
    String.utf8Len (List.replicate n 'a') = n := by
  induction n with
  | zero => rfl
  | succ k ih =>
    simp [List.replicate, ih]
    decide

theorem utf8_mk_replicate (n : Nat) :
    (String.mk (List.replicate n 'a')).utf8ByteSize = n := by
  show String.utf8ByteSize.go (List.replicate n 'a') = n
  have h : String.utf8ByteSize.go (List.replicate n 'a')
      = String.utf8Len (List.replicate n 'a') := rfl
  rw [h, utf8Len_replicate]

theorem bigMessage_utf8 : bigMessage.utf8ByteSize = 1048551 :=
  utf8_mk_replicate 1048551

theorem bigEvent_message : bigEvent.message = bigMessage := rfl

theorem bigEvent_size : EstimateEventSize bigEvent = 1048577 := by
  rw [EstimateEventSize, bigEvent_message, bigMessage_utf8]

theorem accStep_initAcc (k : Nat → Bool) (e : InputLogEvent) :
    accStep k initAcc e = ⟨[e], EstimateEventSize e, [], 0⟩ := by
  rw [accStep, if_neg (by simp [initAcc])]
  simp [initAcc]

theorem runAcc_single (k : Nat → Bool) (e : InputLogEvent) :
    runAccEvents k [e] = ⟨[], 0, [([e], k 0)], 1⟩ := by
  rw [runAccEvents, List.foldl_cons, List.foldl_nil, accStep_initAcc, accFinish]
  rw [if_pos (by simp)]
  simp [flushBatch]

theorem sendEvents_single (e : InputLogEvent) :
    SendEventsToCloudWatch [e] = [e] := rfl

theorem sizeSum_single (e : InputLogEvent) :
    sizeSum [e] = EstimateEventSize e := by
  simp [sizeSum]

theorem runAccumulator_single (marshal : LogEntry → String) (k : Nat → Bool)
    (entry : LogEntry) :
    runAccumulator marshal k [entry]
      = ⟨[], 0, [([entryToEvent marshal entry], k 0)], 1⟩ := by
  rw [runAccumulator, List.map_cons, List.map_nil, runAcc_single]

theorem entryToEvent_big :
    entryToEvent (fun _ => bigMessage) ⟨[], 0⟩ = bigEvent := rfl

theorem runAccumulator_bigEvent (k : Nat → Bool) :
    runAccumulator (fun _ => bigMessage) k [⟨[], 0⟩]
      = ⟨[], 0, [([bigEvent], k 0)], 1⟩ := by
  rw [runAccumulator_single, entryToEvent_big]

/-! ### The claims -/

/-- C1, counterexample: a run consuming a single entry whose marshalled
payload is 1,048,551 bytes emits a batch whose size-estimate sum is
1,048,577 > 1,048,576, so the claimed byte bound does not hold of every
emitted batch. -/
theorem batch_size_bound_counterexample :
    (runAccumulator (fun _ => bigMessage) (fun _ => true) [⟨[], 0⟩]).batches
        = [([bigEvent], true)]
    ∧ maxBatchSize < sizeSum (SendEventsToCloudWatch [bigEvent]) := by
  constructor
  · rw [runAccumulator_bigEvent]
  · rw [sendEvents_single, sizeSum_single, bigEvent_size, maxBatchSize]
    omega

/-- C1 (amended): for any sequence of LogEntry values consumed by the
accumulator, every batch emitted to the sink holds at most 10,000 events
and its timestamps are non-decreasing at emission time, and the sum of
the events' size estimates is at most 1,048,576 bytes unless the batch is
a single event whose own estimate already exceeds that limit. -/
theorem emitted_batch_invariants (marshal : LogEntry → String) (sendOk : Nat → Bool)
    (entries : List LogEntry) (p : List InputLogEvent × Bool)
    (hp : p ∈ (runAccumulator marshal sendOk entries).batches) :
    (SendEventsToCloudWatch p.1).length ≤ maxBatchCount
    ∧ ((SendEventsToCloudWatch p.1).length = 1
        ∨ sizeSum (SendEventsToCloudWatch p.1) ≤ maxBatchSize)
    ∧ chronological (SendEventsToCloudWatch p.1) := by
  have h := (accInv_run sendOk (entries.map (entryToEvent marshal))).batches_ok p hp
  obtain ⟨-, hlen, hsz⟩ := h
  rw [length_sendEvents, sizeSum_sendEvents]
  exact ⟨hlen, hsz, chronological_sendEvents p.1⟩

/-- Witness for emitted_batch_invariants: a concrete one-entry run. -/
theorem emitted_batch_invariants_witness :
    ([⟨"x", 0⟩], true) ∈ (runAccumulator (fun _ => "x") (fun _ => true) [⟨[], 0⟩]).batches
    ∧ ((SendEventsToCloudWatch [⟨"x", 0⟩]).length ≤ maxBatchCount
      ∧ ((SendEventsToCloudWatch [⟨"x", 0⟩]).length = 1
          ∨ sizeSum (SendEventsToCloudWatch [⟨"x", 0⟩]) ≤ maxBatchSize)
      ∧ chronological (SendEventsToCloudWatch [⟨"x", 0⟩])) :=
  ⟨by decide,
   emitted_batch_invariants (fun _ => "x") (fun _ => true) [⟨[], 0⟩]
     ([⟨"x", 0⟩], true) (by decide)⟩

/-- C5 (confirmed): an event whose estimated size alone exceeds the batch
byte budget is emitted alone in its own batch — every emitted batch that
contains it consists of it alone — and every consumed entry is emitted in
exactly one batch, in consumption order. -/
theorem oversized_event_isolated (marshal : LogEntry → String) (sendOk : Nat → Bool)
    (entries : List LogEntry) (p : List InputLogEvent × Bool) (ev : InputLogEvent)
    (hp : p ∈ (runAccumulator marshal sendOk entries).batches)
    (hev : ev ∈ p.1) (hbig : maxBatchSize < EstimateEventSize ev) :
    p.1 = [ev]
    ∧ flushedEvents (runAccumulator marshal sendOk entries)
        = entries.map (entryToEvent marshal) := by
  refine ⟨?_, (flushed_run sendOk (entries.map (entryToEvent marshal))).1⟩
  have hg := (accInv_run sendOk (entries.map (entryToEvent marshal))).batches_ok p hp
  obtain ⟨hpos, hlen, hd⟩ := hg
  rcases hd with h1 | hsz
  · obtain ⟨a, ha⟩ := List.length_eq_one.mp h1
    rw [ha] at hev ⊢
    rcases List.mem_singleton.mp hev with rfl
    rfl
  · exact absurd (le_trans (eventSize_le_sizeSum ev p.1 hev) hsz) (not_le.mpr hbig)

/-- Witness for oversized_event_isolated: the concrete oversized event. -/
theorem oversized_event_isolated_witness :
    ([bigEvent], true) ∈ (runAccumulator (fun _ => bigMessage) (fun _ => true) [⟨[], 0⟩]).batches
    ∧ bigEvent ∈ [bigEvent]
    ∧ maxBatchSize < EstimateEventSize bigEvent
    ∧ ([bigEvent] = [bigEvent]
      ∧ flushedEvents (runAccumulator (fun _ => bigMessage) (fun _ => true) [⟨[], 0⟩])
          = ([⟨[], 0⟩] : List LogEntry).map (entryToEvent fun _ => bigMessage)) := by
  have hp : ([bigEvent], true)
      ∈ (runAccumulator (fun _ => bigMessage) (fun _ => true) [⟨[], 0⟩]).batches := by
    rw [runAccumulator_bigEvent]
    exact List.mem_singleton.mpr rfl
  have hbig : maxBatchSize < EstimateEventSize bigEvent := by
    rw [bigEvent_size, maxBatchSize]
    omega
  exact ⟨hp, List.mem_singleton.mpr rfl, hbig,
    oversized_event_isolated (fun _ => bigMessage) (fun _ => true) [⟨[], 0⟩]
      ([bigEvent], true) bigEvent hp (List.mem_singleton.mpr rfl) hbig⟩

/-- C9, counterexample: with a sink that fails every PutLogEvents call,
the counter read at completion is 1 while the total number of entries in
successfully emitted batches is 0 — the counter does not track successful
emissions. -/
theorem counter_counts_failed_batches :
    (runAccumulator (fun _ => "x") (fun _ => false) [⟨[], 0⟩]).counter = 1
    ∧ specSuccessfulEntryTotal
        (runAccumulator (fun _ => "x") (fun _ => false) [⟨[], 0⟩]) = 0 := by
  decide

/-- C9 (amended): the counter read at completion equals the total number
of entries consumed, which is the total number of entries across all
emitted batches whether or not their emission succeeded — the flushed
count is added after every flush attempt, not only after successful
ones. -/
theorem counter_counts_all_flushed (marshal : LogEntry → String)
    (sendOk : Nat → Bool) (entries : List LogEntry) :
    (runAccumulator marshal sendOk entries).counter = entries.length
    ∧ flushedEvents (runAccumulator marshal sendOk entries)
        = entries.map (entryToEvent marshal) := by
  constructor
  · rw [runAccumulator, counter_run, List.length_map]
  · exact (flushed_run sendOk (entries.map (entryToEvent marshal))).1

/-! ### Helper lemmas: field selection -/

theorem addFields_ok (toks : List String) :
    ∀ acc out, addFields acc toks = .ok out → out = acc ++ toks.map goTrim := by
  induction toks with
  | nil =>
    intro acc out h
    rw [addFields] at h
    cases h
    simp
  | cons f rest ih =>
    intro acc out h
    rw [addFields] at h
    by_cases hc : fieldNames.contains (goTrim f)
    · rw [if_pos hc] at h
      rw [ih _ _ h]
      simp
    · rw [if_neg hc] at h
      cases h

theorem NewFields_ok_map (cfg : String) (fs : IncludedFields)
    (h : NewFields cfg = .ok fs) : fs.includedFieldsMap = selectedNames cfg := by
  rw [NewFields] at h
  rw [selectedNames]
  by_cases hc : cfg = ""
  · rw [if_pos hc] at h
    cases h
    rw [if_pos hc]
  · rw [if_neg hc] at h
    rw [if_neg hc]
    cases haf : addFields [] (goSplit cfg) with
    | error e => rw [haf] at h; cases h
    | ok l =>
      rw [haf] at h
      cases h
      exact addFields_ok (goSplit cfg) [] l haf

theorem getD_mem_of_lt (l : List String) (n : Nat) (d : String)
    (h : n < l.length) : l.getD n d ∈ l := by
  rw [List.getD_eq_getElem l d h]
  exact List.getElem_mem h

/-- C7 (confirmed): after a successful field-selection resolve, the field
store includes exactly the in-range indices whose schema name is among
the selected names — every schema name when the input was empty,
otherwise the trimmed comma-separated tokens — and no out-of-range
index. -/
theorem includeField_matches_selection (cfg : String) (fs : IncludedFields)
    (h : NewFields cfg = .ok fs) (i : Int) :
    fs.IncludeField i = true ↔
      0 ≤ i ∧ i < (fieldNames.length : Int)
        ∧ fieldNames.getD i.toNat "" ∈ selectedNames cfg := by
  rw [IncludedFields.IncludeField]
  by_cases hr : i < 0 ∨ (fieldNames.length : Int) ≤ i
  · rw [if_pos hr]
    simp only [Bool.false_eq_true, false_iff]
    rintro ⟨h1, h2, -⟩
    rcases hr with h3 | h3 <;> omega
  · rw [if_neg hr]
    push_neg at hr
    rw [NewFields_ok_map cfg fs h, List.elem_iff]
    constructor
    · intro hm
      exact ⟨hr.1, hr.2, hm⟩
    · rintro ⟨-, -, hm⟩
      exact hm

/-- Witness for includeField_matches_selection at the selection string
consisting of the single schema name at index 0. -/
theorem includeField_matches_selection_witness :
    NewFields "type" = .ok ⟨["type"]⟩
    ∧ ((IncludedFields.mk ["type"]).IncludeField 0 = true ↔
        0 ≤ (0 : Int) ∧ (0 : Int) < (fieldNames.length : Int)
          ∧ fieldNames.getD (0 : Int).toNat "" ∈ selectedNames "type") :=
  ⟨by decide, includeField_matches_selection "type" ⟨["type"]⟩ (by decide) 0⟩

/-- C8, counterexample: the whitespace-only selection input fails — only
the exactly-empty string selects all fields; a blank string is split into
one token that trims to the empty string, which is not a schema name. -/
theorem blank_selection_rejected :
    NewFields " " = .error (.invalidFieldName "") := by
  decide

/-- C8 (amended): the exactly-empty selection input succeeds and selects
every schema field (and only in-range indices); a whitespace-only but
non-empty input such as a single blank is rejected with an
invalid-field-name error naming the empty token. -/
theorem empty_selection_selects_all :
    NewFields "" = .ok ⟨fieldNames⟩
    ∧ (∀ i : Int, (IncludedFields.mk fieldNames).IncludeField i
        = decide (0 ≤ i ∧ i < (fieldNames.length : Int)))
    ∧ NewFields " " = .error (.invalidFieldName "") := by
  refine ⟨by decide, ?_, by decide⟩
  intro i
  rw [IncludedFields.IncludeField]
  by_cases hr : i < 0 ∨ (fieldNames.length : Int) ≤ i
  · rw [if_pos hr]
    symm
    rw [decide_eq_false_iff_not]
    rintro ⟨h1, h2⟩
    rcases hr with h3 | h3 <;> omega
  · rw [if_neg hr]
    push_neg at hr
    have hlt : i.toNat < fieldNames.length := by omega
    have hmem := getD_mem_of_lt fieldNames i.toNat "" hlt
    have hcont : (IncludedFields.mk fieldNames).includedFieldsMap.contains
        (fieldNames.getD i.toNat "") = true := List.elem_iff.mpr hmem
    rw [hcont]
    symm
    rw [decide_eq_true_iff]
    exact ⟨hr.1, hr.2⟩

/-! ### C2: ProcessLogs failure policy -/

/-- C2 (confirmed): ProcessLogs succeeds exactly when the object fetch
succeeded; on success it drains the parsed entries into the accumulator
(entries queued before any parse error included), parse/stream errors are
only logged, and the sequence of flushed batches does not depend on the
sink outcomes — a failed emission is dropped and batching continues. -/
theorem processLogs_failure_policy (fetch : Except String StreamInput)
    (fieldStore : IncludedFields) (parseTime : String → Except String Int)
    (marshal : LogEntry → String) (sendOk : Nat → Bool) :
    ((ProcessLogs fetch fieldStore parseTime marshal sendOk).isOk = fetch.isOk)
    ∧ ∀ input, fetch = .ok input →
        ProcessLogs fetch fieldStore parseTime marshal sendOk
          = .ok ⟨(runAccumulator marshal sendOk
                    (processRecords input fieldStore parseTime).1).batches,
                 (runAccumulator marshal sendOk
                    (processRecords input fieldStore parseTime).1).counter,
                 (processRecords input fieldStore parseTime).2⟩
        ∧ flushedEvents (runAccumulator marshal sendOk
              (processRecords input fieldStore parseTime).1)
            = (processRecords input fieldStore parseTime).1.map (entryToEvent marshal)
        ∧ (runAccumulator marshal sendOk
              (processRecords input fieldStore parseTime).1).batches.map Prod.fst
            = (runAccumulator marshal (fun _ => true)
                (processRecords input fieldStore parseTime).1).batches.map Prod.fst := by
  cases fetch with
  | error e =>
    refine ⟨rfl, ?_⟩
    intro input h
    exact Except.noConfusion h
  | ok input0 =>
    refine ⟨rfl, ?_⟩
    intro input h
    cases h
    refine ⟨rfl,
      (flushed_run sendOk
        ((processRecords input0 fieldStore parseTime).1.map (entryToEvent marshal))).1,
      ?_⟩
    exact (accSameData_run sendOk (fun _ => true)
      ((processRecords input0 fieldStore parseTime).1.map (entryToEvent marshal))).2.2.2

/-- Witness for processLogs_failure_policy on a successful fetch of an
empty stream. -/
theorem processLogs_failure_policy_witness :
    ((ProcessLogs (.ok ⟨[], none⟩) ⟨fieldNames⟩ (fun _ => .ok 0)
        (fun _ => "x") (fun _ => true)).isOk
      = (Except.ok (⟨[], none⟩ : StreamInput) : Except String StreamInput).isOk)
    ∧ (ProcessLogs (.ok ⟨[], none⟩) ⟨fieldNames⟩ (fun _ => .ok 0)
          (fun _ => "x") (fun _ => true)
        = .ok ⟨(runAccumulator (fun _ => "x") (fun _ => true)
                  (processRecords ⟨[], none⟩ ⟨fieldNames⟩ (fun _ => .ok 0)).1).batches,
               (runAccumulator (fun _ => "x") (fun _ => true)
                  (processRecords ⟨[], none⟩ ⟨fieldNames⟩ (fun _ => .ok 0)).1).counter,
               (processRecords ⟨[], none⟩ ⟨fieldNames⟩ (fun _ => .ok 0)).2⟩
      ∧ flushedEvents (runAccumulator (fun _ => "x") (fun _ => true)
            (processRecords ⟨[], none⟩ ⟨fieldNames⟩ (fun _ => .ok 0)).1)
          = (processRecords ⟨[], none⟩ ⟨fieldNames⟩
              (fun _ => .ok 0)).1.map (entryToEvent fun _ => "x")
      ∧ (runAccumulator (fun _ => "x") (fun _ => true)
            (processRecords ⟨[], none⟩ ⟨fieldNames⟩ (fun _ => .ok 0)).1).batches.map Prod.fst
          = (runAccumulator (fun _ => "x") (fun _ => true)
              (processRecords ⟨[], none⟩ ⟨fieldNames⟩
                (fun _ => .ok 0)).1).batches.map Prod.fst) :=
  ⟨(processLogs_failure_policy (.ok ⟨[], none⟩) ⟨fieldNames⟩ (fun _ => .ok 0)
      (fun _ => "x") (fun _ => true)).1,
   (processLogs_failure_policy (.ok ⟨[], none⟩) ⟨fieldNames⟩ (fun _ => .ok 0)
      (fun _ => "x") (fun _ => true)).2 ⟨[], none⟩ rfl⟩

/-! ### C6: record-length mismatch aborts the stream -/

theorem consumeRecords_all_ok_snd (fieldStore : IncludedFields)
    (parseTime : String → Except String Int) (err : RecError)
    (pre : List (List String)) (bad : List String)
    (herr : recordToLogEntry bad fieldStore parseTime = .error err)
    (hpre : ∀ r ∈ pre, (recordToLogEntry r fieldStore parseTime).isOk = true) :
    (consumeRecords fieldStore parseTime (pre ++ [bad])).2 = some err := by
  induction pre with
  | nil =>
    simp only [List.nil_append, consumeRecords, herr]
  | cons r rs ih =>
    have hr := hpre r (List.mem_cons_self r rs)
    cases hrec : recordToLogEntry r fieldStore parseTime with
    | error e =>
      rw [hrec] at hr
      cases hr
    | ok entry =>
      simp only [List.cons_append, consumeRecords, hrec]
      exact ih fun x hx => hpre x (List.mem_cons_of_mem r hx)

/-- C6 (confirmed): the schema has 30 columns; a record whose token count
differs from 30 yields the error naming the expected and actual counts
and no entry, the stream is not consumed past it (the result does not
depend on the records after it), and when every earlier record parsed
successfully that error is the one the parse loop returns. -/
theorem record_length_mismatch_aborts (fieldStore : IncludedFields)
    (parseTime : String → Except String Int) (pre : List (List String))
    (bad : List String) (post : List (List String))
    (hbad : bad.length ≠ fieldNames.length) :
    fieldNames.length = 30
    ∧ recordToLogEntry bad fieldStore parseTime
        = .error (.invalidLogFormat fieldNames.length bad.length)
    ∧ consumeRecords fieldStore parseTime (pre ++ bad :: post)
        = consumeRecords fieldStore parseTime (pre ++ [bad])
    ∧ ((∀ r ∈ pre, (recordToLogEntry r fieldStore parseTime).isOk = true) →
        (consumeRecords fieldStore parseTime (pre ++ bad :: post)).2
          = some (.invalidLogFormat fieldNames.length bad.length)) := by
  have herr : recordToLogEntry bad fieldStore parseTime
      = .error (.invalidLogFormat fieldNames.length bad.length) := by
    rw [recordToLogEntry, if_pos hbad]
  have hstop : consumeRecords fieldStore parseTime (pre ++ bad :: post)
      = consumeRecords fieldStore parseTime (pre ++ [bad]) := by
    induction pre with
    | nil => simp only [List.nil_append, consumeRecords, herr]
    | cons r rs ih =>
      cases hrec : recordToLogEntry r fieldStore parseTime with
      | error e => simp only [List.cons_append, consumeRecords, hrec]
      | ok entry =>
        simp only [List.cons_append, consumeRecords, hrec]
        exact congrArg
          (fun q : List LogEntry × Option RecError => (entry :: q.1, q.2)) ih
  refine ⟨by decide, herr, hstop, ?_⟩
  intro hpre
  rw [hstop]
  exact consumeRecords_all_ok_snd fieldStore parseTime _ pre bad herr hpre

/-- Witness for record_length_mismatch_aborts: an empty record at the
head of the stream, followed by one more line that is not consumed. -/
theorem record_length_mismatch_aborts_witness :
    ([] : List String).length ≠ fieldNames.length
    ∧ (fieldNames.length = 30
      ∧ recordToLogEntry [] ⟨fieldNames⟩ (fun _ => .ok 0)
          = .error (.invalidLogFormat fieldNames.length ([] : List String).length)
      ∧ consumeRecords ⟨fieldNames⟩ (fun _ => .ok 0) ([] ++ [] :: [["x"]])
          = consumeRecords ⟨fieldNames⟩ (fun _ => .ok 0) ([] ++ [[]])
      ∧ ((∀ r ∈ ([] : List (List String)),
            (recordToLogEntry r ⟨fieldNames⟩ (fun _ => .ok 0)).isOk = true) →
          (consumeRecords ⟨fieldNames⟩ (fun _ => .ok 0) ([] ++ [] :: [["x"]])).2
            = some (.invalidLogFormat fieldNames.length ([] : List String).length))) :=
  ⟨by decide,
   record_length_mismatch_aborts ⟨fieldNames⟩ (fun _ => .ok 0) [] [] [["x"]] (by decide)⟩

/-! ### C10: ParseS3URL -/

theorem indexOfSlash_eq_none (l : List Char) :
    indexOfSlash l = none ↔ '/' ∉ l := by
  induction l with
  | nil => simp [indexOfSlash]
  | cons c cs ih =>
    by_cases hc : c = '/'
    · subst hc
      simp [indexOfSlash]
    · simp [indexOfSlash, hc, Option.map_eq_none', ih, Ne.symm hc]

theorem indexOfSlash_append (bucket rest : List Char) (h : '/' ∉ bucket) :
    indexOfSlash (bucket ++ '/' :: rest) = some bucket.length := by
  induction bucket with
  | nil => simp [indexOfSlash]
  | cons c cs ih =>
    have hc : ¬(c = '/') := fun hh => h (hh ▸ List.mem_cons_self c cs)
    have hih := ih fun hmem => h (List.mem_cons_of_mem c hmem)
    simp only [List.cons_append, indexOfSlash, if_neg hc, List.append_eq, hih]
    rfl

/-- C10 (confirmed): ParseS3URL succeeds exactly when the URL starts with
the s3 scheme and a slash occurs after it; the first failed condition is
named by the error; on success the bucket is the segment before the first
slash of the remainder and the prefix — possibly empty — is everything
after it. -/
theorem parseS3URL_spec (url : String) :
    ((ParseS3URL url).isOk = true ↔
      url.data.take 5 = s3Scheme ∧ '/' ∈ url.data.drop 5)
    ∧ (url.data.take 5 ≠ s3Scheme → ParseS3URL url = .error .missingS3Prefix)
    ∧ (url.data.take 5 = s3Scheme → '/' ∉ url.data.drop 5 →
        ParseS3URL url = .error .noSlashAfterBucket)
    ∧ (∀ bucket rest : List Char, url.data = s3Scheme ++ bucket ++ '/' :: rest →
        '/' ∉ bucket → ParseS3URL url = .ok (⟨bucket⟩, ⟨rest⟩)) := by
  refine ⟨?_, ?_, ?_, ?_⟩
  · simp only [ParseS3URL]
    by_cases h5 : url.data.take 5 = s3Scheme
    · rw [if_pos h5]
      cases hidx : indexOfSlash (url.data.drop 5) with
      | none =>
        rw [show (Except.error S3URLError.noSlashAfterBucket
            : Except S3URLError (String × String)).isOk = false from rfl]
        simp only [Bool.false_eq_true, false_iff, not_and]
        intro _ hmem
        exact absurd hmem ((indexOfSlash_eq_none _).mp hidx)
      | some n =>
        rw [show (Except.ok (⟨(url.data.drop 5).take n⟩,
            ⟨(url.data.drop 5).drop (n + 1)⟩)
            : Except S3URLError (String × String)).isOk = true from rfl]
        simp only [true_iff]
        refine ⟨h5, ?_⟩
        by_contra hnot
        rw [(indexOfSlash_eq_none _).mpr hnot] at hidx
        cases hidx
    · rw [if_neg h5]
      rw [show (Except.error S3URLError.missingS3Prefix
          : Except S3URLError (String × String)).isOk = false from rfl]
      simp only [Bool.false_eq_true, false_iff, not_and]
      intro h5'
      exact absurd h5' h5
  · intro h5
    simp only [ParseS3URL]
    rw [if_neg h5]
  · intro h5 hnot
    simp only [ParseS3URL]
    rw [if_pos h5, (indexOfSlash_eq_none _).mpr hnot]
  · intro bucket rest hurl hnb
    have htake : url.data.take 5 = s3Scheme := by
      rw [hurl, List.append_assoc]
      exact List.take_left' (by simp [s3Scheme])
    have hdrop : url.data.drop 5 = bucket ++ '/' :: rest := by
      rw [hurl, List.append_assoc]
      exact List.drop_left' (by simp [s3Scheme])
    simp only [ParseS3URL]
    rw [if_pos htake, hdrop, indexOfSlash_append bucket rest hnb]
    have h1 : (bucket ++ '/' :: rest).take bucket.length = bucket :=
      List.take_left bucket ('/' :: rest)
    have h2 : (bucket ++ '/' :: rest).drop (bucket.length + 1) = rest := by
      rw [show bucket ++ '/' :: rest = (bucket ++ ['/']) ++ rest by simp]
      exact List.drop_left' (by simp)
    show Except.ok (⟨List.take bucket.length (bucket ++ '/' :: rest)⟩,
        ⟨List.drop (bucket.length + 1) (bucket ++ '/' :: rest)⟩)
      = Except.ok ((⟨bucket⟩ : String), (⟨rest⟩ : String))
    rw [h1, h2]

/-- Witness for parseS3URL_spec: a URL with an empty key prefix succeeds
with an empty prefix. -/
theorem parseS3URL_spec_witness :
    "s3://bucket/".data
        = s3Scheme ++ ('b' :: 'u' :: 'c' :: 'k' :: 'e' :: 't' :: []) ++ '/' :: []
    ∧ '/' ∉ ('b' :: 'u' :: 'c' :: 'k' :: 'e' :: 't' :: [])
    ∧ ParseS3URL "s3://bucket/"
        = .ok (⟨'b' :: 'u' :: 'c' :: 'k' :: 'e' :: 't' :: []⟩, ⟨[]⟩) :=
  ⟨by decide, by decide,
   (parseS3URL_spec "s3://bucket/").2.2.2 _ _ (by decide) (by decide)⟩

/-! ### C4: configuration errors are not fatal in NewLogProcessor -/

/-- C4 (code_bug): for the selection string naming an unknown field the
resolver does report the configuration error, but NewLogProcessor
discards it and, when the log-group bootstrap succeeds, returns a
processor whose field store is empty (`nil`) instead of failing — the
invocation does not fail before processing starts. -/
theorem newLogProcessor_ignores_selection_error :
    NewFields "bogus_field" = .error (.invalidFieldName "bogus_field")
    ∧ NewLogProcessor ⟨"group", "stream", "bogus_field"⟩ (.ok ())
        = .ok ⟨none, ⟨"group", "stream"⟩⟩ := by
  decide

/-! ### C3: the fan-out scheduler abandons blocked senders -/

theorem twoFail_step_closed (s : SchedState)
    (hs : s = schedInit twoFailConfig
      ∨ s = ⟨[.done, .running], some (some (formattedError twoFailConfig 0))⟩
      ∨ s = ⟨[.running, .done], some (some (formattedError twoFailConfig 1))⟩) :
    ∀ t ∈ stepTargets twoFailConfig s,
      t = ⟨[.done, .running], some (some (formattedError twoFailConfig 0))⟩
      ∨ t = ⟨[.running, .done], some (some (formattedError twoFailConfig 1))⟩ := by
  rcases hs with rfl | rfl | rfl <;> decide

theorem twoFail_reachable (s : SchedState)
    (h : SchedReachable twoFailConfig (schedInit twoFailConfig) s) :
    s = schedInit twoFailConfig
    ∨ s = ⟨[.done, .running], some (some (formattedError twoFailConfig 0))⟩
    ∨ s = ⟨[.running, .done], some (some (formattedError twoFailConfig 1))⟩ := by
  induction h with
  | refl => exact Or.inl rfl
  | tail hab hbc ih =>
    rcases twoFail_step_closed _ ih _ hbc with h1 | h2
    · exact Or.inr (Or.inl h1)
    · exact Or.inr (Or.inr h2)

/-- C3 (code_bug): with two objects whose pipelines both fail, every
terminal reachable state of the scheduler has processS3Objects returned
with the first observed error, formatted with the offending bucket and
key — but one worker is still not done: it is blocked forever on its send
to the unbuffered error channel, so the scheduler returns without waiting
for all launched tasks. -/
theorem scheduler_abandons_blocked_sender (s : SchedState)
    (hreach : SchedReachable twoFailConfig (schedInit twoFailConfig) s)
    (hterm : SchedTerminal twoFailConfig s) :
    (s.returned = some (some (formattedError twoFailConfig 0))
      ∨ s.returned = some (some (formattedError twoFailConfig 1)))
    ∧ ¬(∀ w ∈ s.workers, w = WorkerStatus.done) := by
  rcases twoFail_reachable s hreach with rfl | rfl | rfl
  · refine absurd hterm ?_
    show ¬(stepTargets twoFailConfig (schedInit twoFailConfig) = [])
    decide
  · exact ⟨Or.inl rfl, by decide⟩
  · exact ⟨Or.inr rfl, by decide⟩

/-- Witness for scheduler_abandons_blocked_sender: the terminal state in
which worker 0 rendezvoused first and worker 1 is left blocked. -/
theorem scheduler_abandons_blocked_sender_witness :
    SchedReachable twoFailConfig (schedInit twoFailConfig)
        ⟨[.done, .running], some (some (formattedError twoFailConfig 0))⟩
    ∧ SchedTerminal twoFailConfig
        ⟨[.done, .running], some (some (formattedError twoFailConfig 0))⟩
    ∧ (((⟨[.done, .running],
          some (some (formattedError twoFailConfig 0))⟩ : SchedState).returned
            = some (some (formattedError twoFailConfig 0))
        ∨ (⟨[.done, .running],
            some (some (formattedError twoFailConfig 0))⟩ : SchedState).returned
            = some (some (formattedError twoFailConfig 1)))
      ∧ ¬(∀ w ∈ (⟨[.done, .running],
            some (some (formattedError twoFailConfig 0))⟩ : SchedState).workers,
          w = WorkerStatus.done)) := by
  have hstep : SchedStep twoFailConfig (schedInit twoFailConfig)
      ⟨[.done, .running], some (some (formattedError twoFailConfig 0))⟩ := by
    show _ ∈ stepTargets twoFailConfig (schedInit twoFailConfig)
    decide
  have hr : SchedReachable twoFailConfig (schedInit twoFailConfig)
      ⟨[.done, .running], some (some (formattedError twoFailConfig 0))⟩ :=
    Relation.ReflTransGen.single hstep
  have ht : SchedTerminal twoFailConfig
      ⟨[.done, .running], some (some (formattedError twoFailConfig 0))⟩ := by
    show stepTargets twoFailConfig _ = []
    decide
  exact ⟨hr, ht, scheduler_abandons_blocked_sender _ hr ht⟩

end ElbLogs
